import Mathlib

/-!
# Mind_Map — shallow embedding of the tree-state store and canvas logic

Embedding of `src/context/MindMapContext.tsx` (the reducer-based node
store), the zoom/visibility logic of
`src/components/MindMapCanvas/MindMapCanvas.tsx`, and the edit-commit /
drag handlers of `src/components/NodeComponent/NodeComponent.tsx`.

Modelling conventions:
* JavaScript numbers are modelled as rationals (`ℚ`); all arithmetic in
  the claims is exact.
* `Record<string, Node>` objects are modelled as association lists in
  insertion order; the spread update `{...m, [k]: v}` replaces the
  binding in place when `k` is present and appends it otherwise, which
  matches JavaScript property-order semantics for the (non-index) keys
  this program uses.
* `Date.now()` is an external input: every reducer step takes the
  current clock value `now : ℕ` as an explicit argument.  Real clocks
  can return the same millisecond twice, so no relation between
  successive `now` values is assumed.
* Optional fields (`style?`, `htmlContent?`, `connectionStyle?`,
  `parentId: string | null`) become `Option`.
-/

namespace MindMap

/-- A point `{x, y}` in canvas-logical coordinates. -/
structure Point where
  x : ℚ
  y : ℚ
  deriving DecidableEq, Repr

/-- The optional `style` record of a node (all fields optional in the
source). -/
structure NodeStyle where
  color : Option String := none
  backgroundColor : Option String := none
  fontSize : Option String := none
  fontWeight : Option String := none
  borderColor : Option String := none
  borderWidth : Option String := none
  borderStyle : Option String := none
  borderRadius : Option String := none
  backgroundImage : Option String := none
  deriving DecidableEq, Repr

/-- The optional `connectionStyle` record (edge from the parent to this
node). -/
structure ConnectionStyle where
  color : Option String := none
  thickness : Option ℚ := none
  lineStyle : Option String := none
  deriving DecidableEq, Repr

/-- The `Node` interface of `MindMapContext.tsx`. -/
structure Node where
  id : String
  text : String
  parentId : Option String
  childrenIds : List String
  position : Point
  isExpanded : Bool
  style : Option NodeStyle := none
  htmlContent : Option String := none
  connectionStyle : Option ConnectionStyle := none
  deriving DecidableEq, Repr

/-- `Record<string, Node>` as an association list in insertion order. -/
abbrev NodeMap := List (String × Node)

/-- JavaScript property lookup `m[k]` (an object has at most one binding
per key, so first match suffices). -/
def getNode : NodeMap → String → Option Node
  | [], _ => none
  | (k', v) :: rest, k => if k' = k then some v else getNode rest k

/-- The spread update `{...m, [k]: v}`: replace in place when the key is
present, append otherwise. -/
def setKey : NodeMap → String → Node → NodeMap
  | [], k, v => [(k, v)]
  | (k', v') :: rest, k, v =>
      if k' = k then (k, v) :: rest else (k', v') :: setKey rest k v

/-- The `MindMapState` shape: `{ nodes, rootId }`. -/
structure MindMapState where
  nodes : NodeMap
  rootId : String
  deriving DecidableEq, Repr

/-- The `MindMapAction` union type.  The first seven constructors are the
action types the reducer defines cases for; `updateNodePositionByDelta`
is the action shape actually dispatched at runtime by the node-drag
mouse-move handler of `NodeComponent.tsx` (it is absent from the source's
`MindMapAction` TypeScript union, so the reducer has no case for it and
it falls through to the `default` branch). -/
inductive MindMapAction where
  | addNode (parentId : String) (text : String) (position : Option Point)
  | updateNodeText (nodeId : String) (newText : String)
  | toggleNodeExpansion (nodeId : String)
  | setNodePosition (nodeId : String) (position : Point)
  | updateNodeStyle (nodeId : String) (style : NodeStyle)
  | updateNodeHtmlContent (nodeId : String) (htmlContent : String)
  | updateNodeConnectionStyle (nodeId : String) (connectionStyle : ConnectionStyle)
  | updateNodePositionByDelta (nodeId : String) (dx : ℚ) (dy : ℚ) (currentScale : ℚ)
  deriving DecidableEq, Repr

/-- `generateId`: `Date.now().toString()`, with the clock value passed in
explicitly. -/
def generateId (now : ℕ) : String := Nat.repr now

/-- `calculateChildPosition`: deterministic default placement of a new
child below/right of its parent. -/
def calculateChildPosition (parentNode : Node) (parentChildrenCount : ℕ) : Point :=
  { x := parentNode.position.x + 200
    y := parentNode.position.y + (parentChildrenCount : ℚ) * 100 }

/-- The default style literal given to the root node at store creation
(`initialState.nodes[rootId].style`; `initialState` is never mutated, so
the reducer's fallback reference to it always denotes this literal). -/
def defaultRootStyle : NodeStyle :=
  { color := some "#333333"
    backgroundColor := some "#FFFFFF"
    fontSize := some "16px"
    fontWeight := some "normal"
    borderColor := some "#CCCCCC"
    borderWidth := some "1px"
    borderStyle := some "solid"
    borderRadius := some "8px"
    backgroundImage := none }

/-- The default connection style literal used for the root and for every
new node. -/
def defaultConnectionStyle : ConnectionStyle :=
  { color := some "#CBD5E1", thickness := some 2, lineStyle := some "solid" }

/-- The root node created at store initialization; `t0` is the clock
value of the module-level `generateId()` call. -/
def initialRootNode (t0 : ℕ) : Node :=
  { id := generateId t0
    text := "Root Node"
    parentId := none
    childrenIds := []
    position := { x := 300, y := 200 }
    isExpanded := true
    style := some defaultRootStyle
    htmlContent := some ""
    connectionStyle := some defaultConnectionStyle }

/-- `initialState`: a single root node keyed by its generated id. -/
def initialState (t0 : ℕ) : MindMapState :=
  { rootId := generateId t0
    nodes := [(generateId t0, initialRootNode t0)] }

/-- Right-biased choice between optional fields: the patch's value when
present, the base's value otherwise (JavaScript `{...base, ...patch}` on
one field). -/
def overrideField {α : Type} (base patch : Option α) : Option α :=
  match patch with
  | some v => some v
  | none => base

/-- JavaScript spread merge `{...base, ...patch}` for style records:
fields present in the patch win, absent fields keep the base value. -/
def mergeStyle (base patch : NodeStyle) : NodeStyle :=
  { color := overrideField base.color patch.color
    backgroundColor := overrideField base.backgroundColor patch.backgroundColor
    fontSize := overrideField base.fontSize patch.fontSize
    fontWeight := overrideField base.fontWeight patch.fontWeight
    borderColor := overrideField base.borderColor patch.borderColor
    borderWidth := overrideField base.borderWidth patch.borderWidth
    borderStyle := overrideField base.borderStyle patch.borderStyle
    borderRadius := overrideField base.borderRadius patch.borderRadius
    backgroundImage := overrideField base.backgroundImage patch.backgroundImage }

/-- JavaScript spread merge for connection-style records. -/
def mergeConnectionStyle (base patch : ConnectionStyle) : ConnectionStyle :=
  { color := overrideField base.color patch.color
    thickness := overrideField base.thickness patch.thickness
    lineStyle := overrideField base.lineStyle patch.lineStyle }

/-- The node literal built inside the `ADD_NODE` case: inherits the
parent's style (or the root default) with `backgroundColor` reset, uses
the supplied position or the calculated child position, and starts
expanded with no children. -/
def newChildNode (parentNode : Node) (nodeId parentId text : String)
    (pos : Option Point) : Node :=
  { id := nodeId
    text := text
    parentId := some parentId
    childrenIds := []
    position := pos.getD (calculateChildPosition parentNode parentNode.childrenIds.length)
    isExpanded := true
    style := some { parentNode.style.getD defaultRootStyle with
                      backgroundColor := some "#FFFFFF" }
    htmlContent := some ""
    connectionStyle := some defaultConnectionStyle }

/-- `mindMapReducer`: the pure `(state, action) → state` function, with
the `Date.now()` value of the `ADD_NODE` case's `generateId()` call
passed in as `now`. -/
def mindMapReducer (now : ℕ) (state : MindMapState) (action : MindMapAction) :
    MindMapState :=
  match action with
  | .addNode parentId text pos =>
      let nodeId := generateId now
      match getNode state.nodes parentId with
      | none => state
      | some parentNode =>
          let newNode := newChildNode parentNode nodeId parentId text pos
          { state with
              nodes := setKey (setKey state.nodes nodeId newNode) parentId
                { parentNode with childrenIds := parentNode.childrenIds ++ [nodeId] } }
  | .updateNodeText nodeId newText =>
      match getNode state.nodes nodeId with
      | none => state
      | some node =>
          { state with nodes := setKey state.nodes nodeId { node with text := newText } }
  | .toggleNodeExpansion nodeId =>
      match getNode state.nodes nodeId with
      | none => state
      | some node =>
          { state with
              nodes := setKey state.nodes nodeId { node with isExpanded := !node.isExpanded } }
  | .setNodePosition nodeId pos =>
      match getNode state.nodes nodeId with
      | none => state
      | some node =>
          { state with nodes := setKey state.nodes nodeId { node with position := pos } }
  | .updateNodeStyle nodeId patch =>
      match getNode state.nodes nodeId with
      | none => state
      | some node =>
          { state with
              nodes := setKey state.nodes nodeId
                { node with style := some (mergeStyle (node.style.getD {}) patch) } }
  | .updateNodeHtmlContent nodeId htmlContent =>
      match getNode state.nodes nodeId with
      | none => state
      | some node =>
          { state with
              nodes := setKey state.nodes nodeId { node with htmlContent := some htmlContent } }
  | .updateNodeConnectionStyle nodeId patch =>
      match getNode state.nodes nodeId with
      | none => state
      | some node =>
          let merged := mergeConnectionStyle (node.connectionStyle.getD {}) patch
          { state with
              nodes := setKey state.nodes nodeId { node with connectionStyle := some merged } }
  | .updateNodePositionByDelta _ _ _ _ => state

/-- The id an action targets: `parentId` for `ADD_NODE`, `nodeId` for
every other action shape. -/
def targetOf : MindMapAction → String
  | .addNode parentId _ _ => parentId
  | .updateNodeText nodeId _ => nodeId
  | .toggleNodeExpansion nodeId => nodeId
  | .setNodePosition nodeId _ => nodeId
  | .updateNodeStyle nodeId _ => nodeId
  | .updateNodeHtmlContent nodeId _ => nodeId
  | .updateNodeConnectionStyle nodeId _ => nodeId
  | .updateNodePositionByDelta nodeId _ _ _ => nodeId

/-- Whether an action's type is one of the seven cases the reducer
defines (everything except the runtime-only delta action). -/
def isDefinedActionType : MindMapAction → Bool
  | .updateNodePositionByDelta _ _ _ _ => false
  | _ => true

/-! ## Tree invariants (spec §3, items 1–4) -/

/-- Invariant 1: exactly one node has `parentId` absent, and every
non-absent `parentId` references an existing node. -/
def rootInvariant (m : NodeMap) : Bool :=
  (m.countP fun kv => kv.2.parentId.isNone) = 1 &&
    m.all fun kv =>
      match kv.2.parentId with
      | none => true
      | some pid => (getNode m pid).isSome

/-- Invariant 2: for every node `p` and every `c` in `p.childrenIds`,
`nodes[c]` exists and its `parentId` equals `p.id`. -/
def childParentInvariant (m : NodeMap) : Bool :=
  m.all fun kv =>
    kv.2.childrenIds.all fun c =>
      match getNode m c with
      | none => false
      | some child => child.parentId = some kv.2.id

/-- Fuel-bounded walk up the `parentId` chain; `true` when the chain
reaches a root (absent `parentId`) within the given number of steps,
every intermediate parent existing in the map. -/
def ancestorChainOk (m : NodeMap) : ℕ → Node → Bool
  | 0, _ => false
  | fuel + 1, node =>
      match node.parentId with
      | none => true
      | some pid =>
          match getNode m pid with
          | none => false
          | some parent => ancestorChainOk m fuel parent

/-- Invariant 3: the parent relation is acyclic — every node's parent
chain reaches a root within `m.length` steps. -/
def acyclicInvariant (m : NodeMap) : Bool :=
  m.all fun kv => ancestorChainOk m m.length kv.2

/-- Invariant 4: every key of the map equals its node's own `id`. -/
def keyMatchesInvariant (m : NodeMap) : Bool :=
  m.all fun kv => kv.2.id = kv.1

/-- All four tree invariants of spec §3. -/
def treeInvariants (s : MindMapState) : Bool :=
  rootInvariant s.nodes && childParentInvariant s.nodes &&
    acyclicInvariant s.nodes && keyMatchesInvariant s.nodes

/-! ## Canvas logic (`MindMapCanvas.tsx`) -/

/-- The `{x, y, scale}` view transform mapping canvas-logical
coordinates to screen coordinates as `screen = canvas * scale + (x, y)`. -/
structure Transform where
  x : ℚ
  y : ℚ
  scale : ℚ
  deriving DecidableEq, Repr

/-- `Math.min` on (finite) numbers. -/
def mathMin (a b : ℚ) : ℚ := if a < b then a else b

/-- `Math.max` on (finite) numbers. -/
def mathMax (a b : ℚ) : ℚ := if a < b then b else a

/-- The pre-clamp scaling factor of `handleWheel`: with
`delta = -e.deltaY`, the factor is `1.1` when `delta > 0` and `0.9`
otherwise. -/
def wheelScaleChange (delta : ℚ) : ℚ := if delta > 0 then 11/10 else 9/10

/-- The new scale computed by `handleWheel`:
`Math.min(Math.max(scale * scaleChange, 0.1), 3)`. -/
def wheelNewScale (deltaY : ℚ) (scale : ℚ) : ℚ :=
  mathMin (mathMax (scale * wheelScaleChange (-deltaY)) (1/10)) 3

/-- The full transform update of `handleWheel`, with `mouseX`/`mouseY`
the cursor position relative to the container
(`e.clientX - rect.left`, `e.clientY - rect.top`). -/
def handleWheelTransform (t : Transform) (deltaY mouseX mouseY : ℚ) : Transform :=
  let newScale := wheelNewScale deltaY t.scale
  let scaleDiff := newScale - t.scale
  { scale := newScale
    x := t.x - (mouseX - t.x) * (scaleDiff / t.scale)
    y := t.y - (mouseY - t.y) * (scaleDiff / t.scale) }

/-- `shouldRenderNode`, fuel-bounded: a node renders when it is the root,
or its parent exists, is expanded and itself renders.  The source
recursion terminates exactly because parent chains of well-formed states
are acyclic; any fuel at least the parent-chain length computes the same
answer (`shouldRenderNode_fuel_stable`). -/
def shouldRenderNode (m : NodeMap) : ℕ → Node → Bool
  | 0, _ => false
  | fuel + 1, node =>
      match node.parentId with
      | none => true
      | some pid =>
          match getNode m pid with
          | none => false
          | some parent =>
              if parent.isExpanded then shouldRenderNode m fuel parent else false

/-- The visibility predicate of the renderer, with fuel fixed to the
number of nodes (enough for every acyclic state). -/
def shouldRender (s : MindMapState) (node : Node) : Bool :=
  shouldRenderNode s.nodes s.nodes.length node

/-! ## Node component handlers (`NodeComponent.tsx`) -/

/-- JavaScript `String.prototype.trim()`: strip whitespace from both
ends, modelled directly over the character list. -/
def jsTrim (s : String) : String :=
  ⟨((s.data.dropWhile Char.isWhitespace).reverse.dropWhile Char.isWhitespace).reverse⟩

/-- The actions dispatched by one edit-commit (`handleBlur`, also run on
Enter): first the rich-content comparison against
`node.htmlContent || ''`, then — inside that branch — a plain-text
dispatch gated on the trimmed rich content being empty; otherwise the
plain-text comparison alone.  An empty trimmed text is replaced by the
placeholder (`editText.trim() || 'Untitled Node'`). -/
def handleBlur (node : Node) (editText editHtmlContent : String) :
    List MindMapAction :=
  if jsTrim editHtmlContent ≠ node.htmlContent.getD "" then
    MindMapAction.updateNodeHtmlContent node.id (jsTrim editHtmlContent) ::
      (if jsTrim editText ≠ node.text ∧ jsTrim editHtmlContent = "" then
        [MindMapAction.updateNodeText node.id
          (if jsTrim editText = "" then "Untitled Node" else jsTrim editText)]
      else [])
  else if jsTrim editText ≠ node.text then
    [MindMapAction.updateNodeText node.id
      (if jsTrim editText = "" then "Untitled Node" else jsTrim editText)]
  else []

/-- The action dispatched by the node-drag mouse-move handler of
`NodeComponent.tsx`: an `UPDATE_NODE_POSITION_BY_DELTA` with the pointer
delta since the last move and a hardcoded `currentScale` of 1. -/
def nodeDragMouseMoveAction (node : Node) (dragStartX dragStartY clientX clientY : ℚ) :
    MindMapAction :=
  MindMapAction.updateNodePositionByDelta node.id (clientX - dragStartX)
    (clientY - dragStartY) 1

/-! ## Runs of the reducer -/

/-- Apply a list of `(Date.now() value, action)` pairs in order. -/
def applyActions (s : MindMapState) : List (ℕ × MindMapAction) → MindMapState
  | [] => s
  | (now, a) :: rest => applyActions (mindMapReducer now s a) rest

/-- A step's clock value is collision-free: for `ADD_NODE` the generated
id is not already a key of the nodes map (for the other actions the
clock is irrelevant). -/
def stepFresh (s : MindMapState) (now : ℕ) (a : MindMapAction) : Bool :=
  match a with
  | .addNode _ _ _ => (getNode s.nodes (generateId now)).isNone
  | _ => true

/-- A run is collision-free when every step of it is. -/
def runFresh (s : MindMapState) : List (ℕ × MindMapAction) → Bool
  | [] => true
  | (now, a) :: rest => stepFresh s now a && runFresh (mindMapReducer now s a) rest

/-! ## Helper lemmas about the map operations -/

theorem getNode_setKey_self (m : NodeMap) (k : String) (v : Node) :
    getNode (setKey m k v) k = some v := by
  induction m with
  | nil => simp [setKey, getNode]
  | cons kv rest ih =>
      obtain ⟨k1, v1⟩ := kv
      by_cases h : k1 = k
      · subst h; simp [setKey, getNode]
      · simp [setKey, getNode, h, ih]

theorem getNode_setKey_ne (m : NodeMap) (k k2 : String) (v : Node) (h : k2 ≠ k) :
    getNode (setKey m k v) k2 = getNode m k2 := by
  induction m with
  | nil => simp [setKey, getNode, Ne.symm h]
  | cons kv rest ih =>
      obtain ⟨k1, v1⟩ := kv
      by_cases h1 : k1 = k
      · subst h1
        simp [setKey, getNode, Ne.symm h]
      · by_cases h2 : k1 = k2
        · subst h2; simp [setKey, getNode, h1]
        · simp [setKey, getNode, h1, h2, ih]

/-! ## Claims -/

/-- C1: for every state and every action whose target id (`parentId` for
`ADD_NODE`, `nodeId` for the others) is not a key of the nodes map, the
reducer returns the input state unchanged.  The reducer is a total Lean
function, so dispatch never throws. -/
theorem c1_unknown_target_noop (now : ℕ) (s : MindMapState) (a : MindMapAction)
    (h : getNode s.nodes (targetOf a) = none) : mindMapReducer now s a = s := by
  cases a <;> simp only [targetOf] at h <;> simp [mindMapReducer, h]

/-- C1 witness: updating the text of the absent node id `"missing"` in
the initial state leaves the state unchanged. -/
theorem c1_unknown_target_noop_witness :
    getNode (initialState 0).nodes
        (targetOf (MindMapAction.updateNodeText "missing" "t")) = none ∧
      mindMapReducer 0 (initialState 0) (MindMapAction.updateNodeText "missing" "t") =
        initialState 0 :=
  ⟨by decide, c1_unknown_target_noop 0 (initialState 0)
    (MindMapAction.updateNodeText "missing" "t") (by decide)⟩

/-- C2 (code bug): the four tree invariants hold in the initial state,
but an `ADD_NODE` whose `Date.now()` value equals the root's creation
time reuses the root's id: the spread writes the updated parent over the
new node, the root ends up listing itself in `childrenIds` while its own
`parentId` stays absent, and invariant 2 fails. -/
theorem c2_invariants_broken_by_id_collision :
    treeInvariants (initialState 0) = true ∧
      treeInvariants (mindMapReducer 0 (initialState 0)
        (MindMapAction.addNode "0" "New Child" none)) = false ∧
      getNode (mindMapReducer 0 (initialState 0)
          (MindMapAction.addNode "0" "New Child" none)).nodes "0" =
        some { initialRootNode 0 with childrenIds := ["0"] } := by
  refine ⟨by decide, by decide, by decide⟩

/-- C3 (code bug): `generateId` is `Date.now().toString()`, so an
`ADD_NODE` dispatched in the same millisecond as the root's creation
generates the root's own id rather than a fresh one; the node count then
stays 1 instead of increasing by 1, and the parent's `childrenIds`
gains an id that names the parent itself. -/
theorem c3_id_collision_count_unchanged :
    generateId 0 = (initialState 0).rootId ∧
      getNode (initialState 0).nodes (generateId 0) ≠ none ∧
      (mindMapReducer 0 (initialState 0)
            (MindMapAction.addNode "0" "x" none)).nodes.length =
        (initialState 0).nodes.length ∧
      (getNode (mindMapReducer 0 (initialState 0)
            (MindMapAction.addNode "0" "x" none)).nodes "0").map Node.childrenIds =
        some ["0"] := by
  refine ⟨by decide, by decide, by decide, by decide⟩

/-- C10: any dispatched action whose type is not one of the seven the
reducer defines falls through to the `default` case and returns the
state unchanged; in particular the `UPDATE_NODE_POSITION_BY_DELTA`
action built by the node-drag mouse-move handler of `NodeComponent.tsx`
is such an action, so a drag routed through that handler never changes
the state. -/
theorem c10_undefined_action_noop (now : ℕ) (s : MindMapState) (a : MindMapAction)
    (h : isDefinedActionType a = false) (node : Node)
    (dragStartX dragStartY clientX clientY : ℚ) :
    mindMapReducer now s a = s ∧
      isDefinedActionType
          (nodeDragMouseMoveAction node dragStartX dragStartY clientX clientY) = false ∧
      mindMapReducer now s
          (nodeDragMouseMoveAction node dragStartX dragStartY clientX clientY) = s := by
  refine ⟨?_, rfl, rfl⟩
  cases a <;> first | rfl | exact absurd h (by simp [isDefinedActionType])

/-- C10 witness: a concrete drag-move action leaves a concrete state
unchanged. -/
theorem c10_undefined_action_noop_witness :
    mindMapReducer 0 (initialState 0)
        (MindMapAction.updateNodePositionByDelta "0" 3 4 1) = initialState 0 ∧
      isDefinedActionType
          (nodeDragMouseMoveAction (initialRootNode 0) 1 2 4 6) = false ∧
      mindMapReducer 0 (initialState 0)
          (nodeDragMouseMoveAction (initialRootNode 0) 1 2 4 6) = initialState 0 :=
  c10_undefined_action_noop 0 (initialState 0)
    (MindMapAction.updateNodePositionByDelta "0" 3 4 1) rfl
    (initialRootNode 0) 1 2 4 6

/-- The clamp of `handleWheel` lands in `[0.1, 3]` whatever the input. -/
theorem wheelNewScale_mem_range (deltaY scale : ℚ) :
    1/10 ≤ wheelNewScale deltaY scale ∧ wheelNewScale deltaY scale ≤ 3 := by
  unfold wheelNewScale mathMin mathMax
  split_ifs <;> constructor <;> first | linarith | norm_num

/-- Folding any sequence of wheel events from a scale in `[0.1, 3]`
stays in `[0.1, 3]`. -/
theorem wheel_foldl_mem_range (ds : List ℚ) (s : ℚ)
    (hs : 1/10 ≤ s ∧ s ≤ 3) :
    1/10 ≤ ds.foldl (fun a d => wheelNewScale d a) s ∧
      ds.foldl (fun a d => wheelNewScale d a) s ≤ 3 := by
  induction ds generalizing s with
  | nil => exact hs
  | cons d rest ih => exact ih (wheelNewScale d s) (wheelNewScale_mem_range d s)

/-- C5: from any scale in `[0.1, 3.0]` a single wheel event keeps the
scale in `[0.1, 3.0]`, whatever the sign or magnitude of the wheel
delta, and any finite sequence of wheel events starting from the initial
scale 1 stays in `[0.1, 3.0]`. -/
theorem c5_scale_clamped (deltaY scale : ℚ) (ds : List ℚ)
    (h1 : 1/10 ≤ scale) (h2 : scale ≤ 3) :
    (1/10 ≤ wheelNewScale deltaY scale ∧ wheelNewScale deltaY scale ≤ 3) ∧
      (1/10 ≤ ds.foldl (fun a d => wheelNewScale d a) 1 ∧
        ds.foldl (fun a d => wheelNewScale d a) 1 ≤ 3) :=
  ⟨wheelNewScale_mem_range deltaY scale,
    wheel_foldl_mem_range ds 1 (by norm_num)⟩

/-- C5 witness: a huge zoom-out delta from scale 3 stays clamped, and a
concrete event sequence from scale 1 stays in range. -/
theorem c5_scale_clamped_witness :
    (1/10 ≤ wheelNewScale (-1000000) 3 ∧ wheelNewScale (-1000000) 3 ≤ 3) ∧
      (1/10 ≤ [(5 : ℚ), -7, 12].foldl (fun a d => wheelNewScale d a) 1 ∧
        [(5 : ℚ), -7, 12].foldl (fun a d => wheelNewScale d a) 1 ≤ 3) :=
  c5_scale_clamped (-1000000) 3 [(5 : ℚ), -7, 12] (by norm_num) (by norm_num)

/-- C6 counterexample: the code's pre-clamp factors are `1.1` (for
`delta = -deltaY > 0`) and `0.9` (otherwise); neither direction applies
the claimed factor `1/1.1 ≈ 0.909`. -/
theorem c6_factor_counterexample :
    wheelScaleChange (-(100 : ℚ)) = 9/10 ∧ wheelScaleChange (-(-100 : ℚ)) = 11/10 ∧
      (9/10 : ℚ) ≠ 1/(11/10) ∧ (11/10 : ℚ) ≠ 1/(11/10) := by
  refine ⟨?_, ?_, by norm_num, by norm_num⟩ <;> norm_num [wheelScaleChange]

/-- C6 (amended): the pre-clamp scaling factor is exactly `1.1` for a
negative wheel delta (`deltaY < 0`) and exactly `0.9` — not `1/1.1` —
for a non-negative one, the direction determined by the sign of the
wheel delta. -/
theorem c6_factor_values (deltaY : ℚ) :
    (deltaY < 0 → wheelScaleChange (-deltaY) = 11/10) ∧
      (0 ≤ deltaY → wheelScaleChange (-deltaY) = 9/10) ∧
      (9/10 : ℚ) ≠ 1/(11/10) := by
  refine ⟨fun h => ?_, fun h => ?_, by norm_num⟩
  · rw [wheelScaleChange, if_pos (by linarith)]
  · rw [wheelScaleChange, if_neg (by simp; linarith)]

/-- C6 witness: the two factor values at concrete wheel deltas. -/
theorem c6_factor_values_witness :
    wheelScaleChange (-(-3 : ℚ)) = 11/10 ∧ wheelScaleChange (-(3 : ℚ)) = 9/10 ∧
      (9/10 : ℚ) ≠ 1/(11/10) :=
  ⟨(c6_factor_values (-3)).1 (by norm_num), (c6_factor_values 3).2.1 (by norm_num),
    (c6_factor_values 3).2.2⟩

/-- C7: the zoom update keeps the anchor point fixed: the canvas-logical
point that the old transform maps to the cursor's screen position is
mapped by the new transform to the same screen position, for every
nonzero old scale and every resulting (possibly clamped) new scale. -/
theorem c7_zoom_anchor_fixed (t : Transform) (deltaY mouseX mouseY : ℚ)
    (h : t.scale ≠ 0) :
    ((mouseX - t.x) / t.scale) * (handleWheelTransform t deltaY mouseX mouseY).scale +
        (handleWheelTransform t deltaY mouseX mouseY).x = mouseX ∧
      ((mouseY - t.y) / t.scale) * (handleWheelTransform t deltaY mouseX mouseY).scale +
        (handleWheelTransform t deltaY mouseX mouseY).y = mouseY := by
  unfold handleWheelTransform
  constructor <;> (simp only []; field_simp; ring)

/-- C7 witness: the anchor identity at a concrete transform and cursor. -/
theorem c7_zoom_anchor_fixed_witness :
    ((10 - (2 : ℚ)) / 1) *
          (handleWheelTransform { x := 2, y := 3, scale := 1 } 5 10 20).scale +
        (handleWheelTransform { x := 2, y := 3, scale := 1 } 5 10 20).x = 10 ∧
      ((20 - (3 : ℚ)) / 1) *
          (handleWheelTransform { x := 2, y := 3, scale := 1 } 5 10 20).scale +
        (handleWheelTransform { x := 2, y := 3, scale := 1 } 5 10 20).y = 20 :=
  c7_zoom_anchor_fixed { x := 2, y := 3, scale := 1 } 5 10 20 (by norm_num)

/-- C4: when the parent exists and the generated id differs from the
parent's id, the added node is stored under the generated id and its
position is the supplied one when supplied, and otherwise
`(parent.x + 200, parent.y + childCount * 100)`. -/
theorem c4_new_child_position (now : ℕ) (s : MindMapState) (parentId text : String)
    (pos : Option Point) (parentNode : Node)
    (hp : getNode s.nodes parentId = some parentNode)
    (hfresh : generateId now ≠ parentId) :
    getNode (mindMapReducer now s (MindMapAction.addNode parentId text pos)).nodes
        (generateId now) =
      some (newChildNode parentNode (generateId now) parentId text pos) ∧
      (newChildNode parentNode (generateId now) parentId text pos).position =
        (match pos with
          | some q => q
          | none =>
              { x := parentNode.position.x + 200
                y := parentNode.position.y + (parentNode.childrenIds.length : ℚ) * 100 }) := by
  constructor
  · simp only [mindMapReducer, hp]
    rw [getNode_setKey_ne _ _ _ _ hfresh, getNode_setKey_self]
  · cases pos <;> rfl

/-- C4 witness: from the initial state with the root at `(300, 200)`,
the first added child lands at `(500, 200)` and a second added child at
`(500, 300)`. -/
theorem c4_new_child_position_witness :
    (getNode (mindMapReducer 1 (initialState 0)
          (MindMapAction.addNode "0" "A" none)).nodes (generateId 1) =
        some (newChildNode (initialRootNode 0) (generateId 1) "0" "A" none)) ∧
      (newChildNode (initialRootNode 0) (generateId 1) "0" "A" none).position =
        { x := 500, y := 200 } ∧
      (getNode (mindMapReducer 2 (mindMapReducer 1 (initialState 0)
              (MindMapAction.addNode "0" "A" none))
            (MindMapAction.addNode "0" "B" none)).nodes (generateId 2) =
        some (newChildNode { initialRootNode 0 with childrenIds := ["1"] }
          (generateId 2) "0" "B" none)) ∧
      (newChildNode { initialRootNode 0 with childrenIds := ["1"] }
          (generateId 2) "0" "B" none).position = { x := 500, y := 300 } := by
  refine ⟨(c4_new_child_position 1 (initialState 0) "0" "A" none (initialRootNode 0)
      (by decide) (by decide)).1, ?_,
    (c4_new_child_position 2 (mindMapReducer 1 (initialState 0)
        (MindMapAction.addNode "0" "A" none)) "0" "B" none
        { initialRootNode 0 with childrenIds := ["1"] } (by decide) (by decide)).1, ?_⟩
  · norm_num [newChildNode, calculateChildPosition, initialRootNode, Point.mk.injEq]
  · norm_num [newChildNode, calculateChildPosition, initialRootNode, Point.mk.injEq]

/-- Rendering visibility is unchanged by giving the fuel-bounded walk
more fuel, as long as the given fuel already completes the parent
chain. -/
theorem shouldRenderNode_fuel_stable (m : NodeMap) :
    ∀ fuel fuel2 node, ancestorChainOk m fuel node = true → fuel ≤ fuel2 →
      shouldRenderNode m fuel2 node = shouldRenderNode m fuel node := by
  intro fuel
  induction fuel with
  | zero => intro fuel2 node hchain hle; simp [ancestorChainOk] at hchain
  | succ f ih =>
      intro fuel2 node hchain hle
      obtain ⟨f2, rfl⟩ : ∃ f2, fuel2 = f2 + 1 := ⟨fuel2 - 1, by omega⟩
      cases hpid : node.parentId with
      | none => simp [shouldRenderNode, hpid]
      | some pid =>
          simp only [ancestorChainOk, hpid] at hchain
          cases hparent : getNode m pid with
          | none => rw [hparent] at hchain; simp at hchain
          | some parent =>
              rw [hparent] at hchain
              simp only [shouldRenderNode, hpid, hparent]
              by_cases hexp : parent.isExpanded
              · simp [hexp, ih f2 parent hchain (by omega)]
              · simp [hexp]

/-- One unfolding step of the renderer's visibility predicate, valid
whenever the node's parent chain is complete at the standard fuel. -/
theorem shouldRender_step (s : MindMapState) (node : Node)
    (hchain : ancestorChainOk s.nodes s.nodes.length node = true) :
    shouldRender s node =
      match node.parentId with
      | none => true
      | some pid =>
          match getNode s.nodes pid with
          | none => false
          | some parent => if parent.isExpanded then shouldRender s parent else false := by
  obtain ⟨l, hl⟩ : ∃ l, s.nodes.length = l + 1 := by
    cases hm : s.nodes.length with
    | zero => rw [hm] at hchain; simp [ancestorChainOk] at hchain
    | succ n => exact ⟨n, rfl⟩
  rw [hl] at hchain
  cases hpid : node.parentId with
  | none => simp [shouldRender, hl, shouldRenderNode, hpid]
  | some pid =>
      simp only [ancestorChainOk, hpid] at hchain
      cases hparent : getNode s.nodes pid with
      | none => rw [hparent] at hchain; simp at hchain
      | some parent =>
          rw [hparent] at hchain
          unfold shouldRender
          rw [hl]
          simp only [hpid, hparent]
          rw [shouldRenderNode_fuel_stable s.nodes l (l + 1) parent hchain (by omega)]
          simp only [shouldRenderNode, hpid, hparent]

/-- C8: in a state satisfying the tree invariants, a node of the map is
visible exactly when it is the root (absent `parentId`), or its parent
exists in the map, is expanded, and is itself visible. -/
theorem c8_visibility_rule (s : MindMapState) (node : Node) (k : String)
    (hinv : treeInvariants s = true) (hmem : (k, node) ∈ s.nodes) :
    shouldRender s node = true ↔
      node.parentId = none ∨
        ∃ pid parent, node.parentId = some pid ∧ getNode s.nodes pid = some parent ∧
          parent.isExpanded = true ∧ shouldRender s parent = true := by
  have hacyc : acyclicInvariant s.nodes = true := by
    simp only [treeInvariants, Bool.and_eq_true] at hinv
    exact hinv.1.2
  have hchain : ancestorChainOk s.nodes s.nodes.length node = true := by
    simpa using List.all_eq_true.mp hacyc (k, node) hmem
  rw [shouldRender_step s node hchain]
  cases hpid : node.parentId with
  | none => simp
  | some pid =>
      cases hparent : getNode s.nodes pid with
      | none => simp [hparent]
      | some parent =>
          by_cases hexp : parent.isExpanded
          · simp [hparent, hexp]
          · simp [hparent, hexp]

/-- C8 witness: the visibility rule instantiated at the initial state's
root node. -/
theorem c8_visibility_rule_witness :
    shouldRender (initialState 0) (initialRootNode 0) = true ↔
      (initialRootNode 0).parentId = none ∨
        ∃ pid parent, (initialRootNode 0).parentId = some pid ∧
          getNode (initialState 0).nodes pid = some parent ∧
          parent.isExpanded = true ∧ shouldRender (initialState 0) parent = true :=
  c8_visibility_rule (initialState 0) (initialRootNode 0) "0" (by decide) (by decide)

/-- C9 counterexample: with stored rich content `"rich"`, clearing the
rich content (it trims to `""`, which differs from the stored value)
while the plain text also changed dispatches BOTH
`UPDATE_NODE_HTML_CONTENT` and `UPDATE_NODE_TEXT` in one commit,
contradicting the claim that exactly one of the two fires. -/
theorem c9_double_dispatch_counterexample :
    handleBlur
        { id := "n", text := "old", parentId := none, childrenIds := []
          position := { x := 0, y := 0 }, isExpanded := true, style := none
          htmlContent := some "rich", connectionStyle := none } "new" "" =
      [MindMapAction.updateNodeHtmlContent "n" "",
        MindMapAction.updateNodeText "n" "new"] := by decide

/-- C9 (amended): per commit, `UPDATE_NODE_HTML_CONTENT` is dispatched
iff the trimmed rich content differs from the stored `htmlContent`
(coalesced to `""`); `UPDATE_NODE_TEXT` — with the trimmed text, or the
placeholder `"Untitled Node"` when that is empty, never `""` — is
dispatched iff the trimmed text differs from the stored text and either
the rich content did not change or it changed to the empty string.  A
commit can therefore fire zero, one, or both of the two dispatches. -/
theorem c9_commit_dispatches (node : Node) (editText editHtmlContent : String) :
    (handleBlur node editText editHtmlContent =
      (if jsTrim editHtmlContent ≠ node.htmlContent.getD "" then
        [MindMapAction.updateNodeHtmlContent node.id (jsTrim editHtmlContent)]
      else []) ++
      (if (jsTrim editHtmlContent ≠ node.htmlContent.getD "" ∧
            jsTrim editHtmlContent = "" ∧ jsTrim editText ≠ node.text) ∨
          (jsTrim editHtmlContent = node.htmlContent.getD "" ∧
            jsTrim editText ≠ node.text) then
        [MindMapAction.updateNodeText node.id
          (if jsTrim editText = "" then "Untitled Node" else jsTrim editText)]
      else [])) ∧
      MindMapAction.updateNodeText node.id "" ∉ handleBlur node editText editHtmlContent := by
  constructor
  · unfold handleBlur
    by_cases h3 : jsTrim editHtmlContent = "" <;>
      by_cases h1 : jsTrim editHtmlContent = node.htmlContent.getD "" <;>
      by_cases h2 : jsTrim editText = node.text <;>
      simp_all
  · have hpayload :
        ("" : String) = (if jsTrim editText = "" then "Untitled Node" else jsTrim editText) →
          False := by
      intro h
      by_cases h4 : jsTrim editText = ""
      · rw [if_pos h4] at h; exact absurd h (by decide)
      · rw [if_neg h4] at h; exact h4 h.symm
    intro hmem
    unfold handleBlur at hmem
    rcases Classical.em (jsTrim editHtmlContent ≠ node.htmlContent.getD "") with hc | hc
    · rw [if_pos hc] at hmem
      rcases List.mem_cons.mp hmem with h | h
      · exact absurd h (by simp)
      · rcases Classical.em (jsTrim editText ≠ node.text ∧ jsTrim editHtmlContent = "")
          with hg | hg
        · rw [if_pos hg] at h
          simp only [List.mem_singleton, MindMapAction.updateNodeText.injEq] at h
          exact hpayload h.2
        · rw [if_neg hg] at h; simp at h
    · rw [if_neg hc] at hmem
      rcases Classical.em (jsTrim editText ≠ node.text) with hg | hg
      · rw [if_pos hg] at hmem
        simp only [List.mem_singleton, MindMapAction.updateNodeText.injEq] at hmem
        exact hpayload hmem.2
      · rw [if_neg hg] at hmem; simp at hmem

/-- C9 witness: committing with cleared rich content and blank text
never dispatches an empty text (the placeholder is used instead). -/
theorem c9_commit_dispatches_witness :
    MindMapAction.updateNodeText "n" "" ∉
      handleBlur
        { id := "n", text := "old", parentId := none, childrenIds := []
          position := { x := 0, y := 0 }, isExpanded := true, style := none
          htmlContent := some "rich", connectionStyle := none } "  " "" :=
  (c9_commit_dispatches
    { id := "n", text := "old", parentId := none, childrenIds := []
      position := { x := 0, y := 0 }, isExpanded := true, style := none
      htmlContent := some "rich", connectionStyle := none } "  " "").2

/-! ## Invariant preservation under collision-free ids

The positive counterpart of the C2/C3 code bug: whenever every
`ADD_NODE` step's generated id is not already a key of the map, the
reducer preserves all four tree invariants of spec §3. -/

theorem mem_of_getNode (m : NodeMap) (k : String) (v : Node)
    (h : getNode m k = some v) : (k, v) ∈ m := by
  induction m with
  | nil => simp [getNode] at h
  | cons kv rest ih =>
      obtain ⟨k1, v1⟩ := kv
      by_cases h1 : k1 = k
      · subst h1
        simp [getNode] at h
        subst h
        exact List.mem_cons_self _ _
      · simp only [getNode, if_neg h1] at h
        exact List.mem_cons_of_mem _ (ih h)

theorem mem_setKey_cases (m : NodeMap) (k : String) (v : Node) (kv : String × Node)
    (h : kv ∈ setKey m k v) : kv = (k, v) ∨ kv ∈ m := by
  induction m with
  | nil =>
      simp only [setKey, List.mem_singleton] at h
      exact Or.inl h
  | cons kv1 rest ih =>
      obtain ⟨k1, v1⟩ := kv1
      by_cases h1 : k1 = k
      · subst h1
        simp only [setKey, if_pos rfl] at h
        rcases List.mem_cons.mp h with h | h
        · exact Or.inl h
        · exact Or.inr (List.mem_cons_of_mem _ h)
      · simp only [setKey, if_neg h1] at h
        rcases List.mem_cons.mp h with h | h
        · exact Or.inr (by rw [h]; exact List.mem_cons_self _ _)
        · rcases ih h with h | h
          · exact Or.inl h
          · exact Or.inr (List.mem_cons_of_mem _ h)

theorem length_setKey_some (m : NodeMap) (k : String) (w v : Node)
    (hget : getNode m k = some w) : (setKey m k v).length = m.length := by
  induction m with
  | nil => simp [getNode] at hget
  | cons kv rest ih =>
      obtain ⟨k1, v1⟩ := kv
      by_cases h1 : k1 = k
      · subst h1; simp [setKey]
      · simp only [getNode, if_neg h1] at hget
        simp [setKey, h1, ih hget]

theorem countP_setKey_some (m : NodeMap) (k : String) (w v : Node)
    (p : String × Node → Bool) (hget : getNode m k = some w)
    (hp : p (k, v) = p (k, w)) : (setKey m k v).countP p = m.countP p := by
  induction m with
  | nil => simp [getNode] at hget
  | cons kv rest ih =>
      obtain ⟨k1, v1⟩ := kv
      by_cases h1 : k1 = k
      · subst h1
        simp [getNode] at hget
        subst hget
        simp [setKey, List.countP_cons, hp]
      · simp only [getNode, if_neg h1] at hget
        simp [setKey, h1, List.countP_cons, ih hget]

theorem setKey_append_of_getNode_none (m : NodeMap) (k : String) (v : Node)
    (h : getNode m k = none) : setKey m k v = m ++ [(k, v)] := by
  induction m with
  | nil => simp [setKey]
  | cons kv rest ih =>
      obtain ⟨k1, v1⟩ := kv
      by_cases h1 : k1 = k
      · subst h1; simp [getNode] at h
      · simp only [getNode, if_neg h1] at h
        simp [setKey, h1, ih h]

theorem ancestorChainOk_mono (m : NodeMap) :
    ∀ f f2 x, ancestorChainOk m f x = true → f ≤ f2 →
      ancestorChainOk m f2 x = true := by
  intro f
  induction f with
  | zero => intro f2 x h hle; simp [ancestorChainOk] at h
  | succ g ih =>
      intro f2 x h hle
      obtain ⟨g2, rfl⟩ : ∃ g2, f2 = g2 + 1 := ⟨f2 - 1, by omega⟩
      cases hpid : x.parentId with
      | none => simp [ancestorChainOk, hpid]
      | some p =>
          cases hg : getNode m p with
          | none => simp [ancestorChainOk, hpid, hg] at h
          | some w =>
              simp only [ancestorChainOk, hpid, hg] at h ⊢
              exact ih g2 w h (by omega)

theorem ancestorChainOk_self_loop (m : NodeMap) (x : Node) (p : String)
    (hpid : x.parentId = some p) (hget : getNode m p = some x) :
    ∀ f, ancestorChainOk m f x = false := by
  intro f
  induction f with
  | zero => rfl
  | succ g ih => simp [ancestorChainOk, hpid, hget, ih]

theorem ancestorChainOk_transfer (m m2 : NodeMap)
    (hloc : ∀ p w, getNode m p = some w →
      ∃ w2, getNode m2 p = some w2 ∧ w2.parentId = w.parentId) :
    ∀ f x y, x.parentId = y.parentId → ancestorChainOk m f y = true →
      ancestorChainOk m2 f x = true := by
  intro f
  induction f with
  | zero => intro x y hxy h; simp [ancestorChainOk] at h
  | succ g ih =>
      intro x y hxy h
      cases hpid : y.parentId with
      | none => simp [ancestorChainOk, hxy, hpid]
      | some p =>
          cases hg : getNode m p with
          | none => simp [ancestorChainOk, hpid, hg] at h
          | some w =>
              simp only [ancestorChainOk, hpid, hg] at h
              obtain ⟨w2, hw2, hw2p⟩ := hloc p w hg
              simp only [ancestorChainOk, hxy, hpid, hw2]
              exact ih w2 w hw2p h

/-- Replacing an existing node by one with the same `id`, `parentId` and
`childrenIds` (which is what every update-type reducer case does)
preserves the four tree invariants. -/
theorem treeInvariants_setKey_update (s : MindMapState) (k : String) (node v : Node)
    (hget : getNode s.nodes k = some node) (hid : v.id = node.id)
    (hpar : v.parentId = node.parentId) (hch : v.childrenIds = node.childrenIds)
    (hinv : treeInvariants s = true) :
    treeInvariants { s with nodes := setKey s.nodes k v } = true := by
  simp only [treeInvariants, Bool.and_eq_true] at hinv ⊢
  obtain ⟨⟨⟨hroot, hcp⟩, hacyc⟩, hkeys⟩ := hinv
  have hmemnode : (k, node) ∈ s.nodes := mem_of_getNode _ _ _ hget
  have hnodeid : node.id = k := by
    have hb := List.all_eq_true.mp hkeys _ hmemnode
    simpa using hb
  have hlook : ∀ c, getNode (setKey s.nodes k v) c =
      if c = k then some v else getNode s.nodes c := by
    intro c
    by_cases hc : c = k
    · subst hc; simp [getNode_setKey_self]
    · simp [hc, getNode_setKey_ne _ _ _ _ hc]
  have hnsl : node.parentId ≠ some k := by
    intro hcontra
    have hc := List.all_eq_true.mp hacyc _ hmemnode
    simp only at hc
    rw [ancestorChainOk_self_loop s.nodes node k hcontra hget] at hc
    exact Bool.false_ne_true hc
  have hloc : ∀ p w, getNode s.nodes p = some w →
      ∃ w2, getNode (setKey s.nodes k v) p = some w2 ∧ w2.parentId = w.parentId := by
    intro p w hw
    by_cases hc : p = k
    · subst hc
      refine ⟨v, getNode_setKey_self _ _ _, ?_⟩
      rw [hget] at hw
      injection hw with hw
      rw [hpar, hw]
    · exact ⟨w, by rw [getNode_setKey_ne _ _ _ _ hc]; exact hw, rfl⟩
  have hlen : (setKey s.nodes k v).length = s.nodes.length :=
    length_setKey_some _ _ node _ hget
  refine ⟨⟨⟨?_, ?_⟩, ?_⟩, ?_⟩
  · -- invariant 1: one root, parents exist
    simp only [rootInvariant, Bool.and_eq_true] at hroot ⊢
    obtain ⟨hcount, hexist⟩ := hroot
    constructor
    · rw [decide_eq_true_eq] at hcount ⊢
      rw [countP_setKey_some s.nodes k node v _ hget (by simp [hpar])]
      exact hcount
    · rw [List.all_eq_true] at hexist ⊢
      intro kv hkv
      rcases mem_setKey_cases _ _ _ _ hkv with rfl | hkv2
      · simp only [hpar]
        cases hp : node.parentId with
        | none => simp
        | some pid =>
            simp only
            rw [hlook pid]
            by_cases hc : pid = k
            · simp [hc]
            · rw [if_neg hc]
              have hb := hexist _ hmemnode
              simp only [hp] at hb
              exact hb
      · have hb := hexist _ hkv2
        cases hp : kv.2.parentId with
        | none => simp [hp]
        | some pid =>
            simp only [hp] at hb ⊢
            rw [hlook pid]
            by_cases hc : pid = k
            · simp [hc]
            · rw [if_neg hc]; exact hb
  · -- invariant 2: childrenIds point back to their parent
    simp only [childParentInvariant, List.all_eq_true] at hcp ⊢
    intro kv hkv
    rcases mem_setKey_cases _ _ _ _ hkv with rfl | hkv2
    · intro c hc
      simp only [hch] at hc
      have hbody := hcp _ hmemnode c hc
      cases hgc : getNode s.nodes c with
      | none => simp [hgc] at hbody
      | some child =>
          simp only [hgc, decide_eq_true_eq] at hbody
          by_cases hck : c = k
          · exfalso
            subst hck
            rw [hget] at hgc
            injection hgc with hgc
            subst hgc
            exact hnsl (by rw [hbody, hnodeid])
          · simp only [hlook c, if_neg hck, hgc, decide_eq_true_eq, hid]
            exact hbody
    · intro c hc
      have hbody := hcp _ hkv2 c hc
      cases hgc : getNode s.nodes c with
      | none => simp [hgc] at hbody
      | some child =>
          simp only [hgc, decide_eq_true_eq] at hbody
          by_cases hck : c = k
          · subst hck
            rw [hget] at hgc
            injection hgc with hgc
            subst hgc
            simp [hlook, hpar, hbody]
          · simp only [hlook c, if_neg hck, hgc, decide_eq_true_eq]
            exact hbody
  · -- invariant 3: acyclicity
    simp only [acyclicInvariant, List.all_eq_true] at hacyc ⊢
    intro kv hkv
    rcases mem_setKey_cases _ _ _ _ hkv with rfl | hkv2
    · simp only [hlen]
      exact ancestorChainOk_transfer s.nodes _ hloc _ v node hpar (hacyc _ hmemnode)
    · simp only [hlen]
      exact ancestorChainOk_transfer s.nodes _ hloc _ kv.2 kv.2 rfl (hacyc _ hkv2)
  · -- invariant 4: key matches id
    simp only [keyMatchesInvariant, List.all_eq_true] at hkeys ⊢
    intro kv hkv
    rcases mem_setKey_cases _ _ _ _ hkv with rfl | hkv2
    · simp [hid, hnodeid]
    · exact hkeys _ hkv2

/-- Adding a child under an existing parent with a collision-free
generated id preserves the four tree invariants. -/
theorem treeInvariants_addNode (s : MindMapState) (now : ℕ) (parentId text : String)
    (pos : Option Point) (hfresh : getNode s.nodes (generateId now) = none)
    (hinv : treeInvariants s = true) :
    treeInvariants (mindMapReducer now s (MindMapAction.addNode parentId text pos)) =
      true := by
  cases hp : getNode s.nodes parentId with
  | none => simpa [mindMapReducer, hp] using hinv
  | some parentNode =>
      have hne : generateId now ≠ parentId := by
        intro h
        rw [h, hp] at hfresh
        cases hfresh
      obtain ⟨nn, pn2, hnnid, hnnpar, hnnch, hpn2id, hpn2par, hpn2ch, heq⟩ :
          ∃ nn pn2 : Node, nn.id = generateId now ∧ nn.parentId = some parentId ∧
            nn.childrenIds = [] ∧ pn2.id = parentNode.id ∧
            pn2.parentId = parentNode.parentId ∧
            pn2.childrenIds = parentNode.childrenIds ++ [generateId now] ∧
            mindMapReducer now s (MindMapAction.addNode parentId text pos) =
              { s with nodes := setKey (setKey s.nodes (generateId now) nn) parentId pn2 } :=
        ⟨newChildNode parentNode (generateId now) parentId text pos,
          { parentNode with childrenIds := parentNode.childrenIds ++ [generateId now] },
          rfl, rfl, rfl, rfl, rfl, rfl, by simp only [mindMapReducer, hp]⟩
      rw [heq]
      simp only [treeInvariants, Bool.and_eq_true] at hinv ⊢
      obtain ⟨⟨⟨hroot, hcp⟩, hacyc⟩, hkeys⟩ := hinv
      have hmempn : (parentId, parentNode) ∈ s.nodes := mem_of_getNode _ _ _ hp
      have hpid : parentNode.id = parentId := by
        have hb := List.all_eq_true.mp hkeys _ hmempn
        simpa using hb
      have hnsl : parentNode.parentId ≠ some parentId := by
        intro hcontra
        have hc := List.all_eq_true.mp hacyc _ hmempn
        simp only at hc
        rw [ancestorChainOk_self_loop s.nodes parentNode parentId hcontra hp] at hc
        exact Bool.false_ne_true hc
      have hchild_ne : ∀ c, c ∈ parentNode.childrenIds → c ≠ generateId now := by
        intro c hc hceq
        have hbody := List.all_eq_true.mp (List.all_eq_true.mp hcp _ hmempn) c hc
        rw [hceq, hfresh] at hbody
        simp at hbody
      have hg1 : getNode (setKey s.nodes (generateId now) nn) parentId =
          some parentNode := by
        rw [getNode_setKey_ne _ _ _ _ (Ne.symm hne)]
        exact hp
      have hlook : ∀ c,
          getNode (setKey (setKey s.nodes (generateId now) nn) parentId pn2) c =
            if c = parentId then some pn2
            else if c = generateId now then some nn
            else getNode s.nodes c := by
        intro c
        by_cases hc1 : c = parentId
        · rw [if_pos hc1, hc1, getNode_setKey_self]
        · rw [getNode_setKey_ne _ _ _ _ hc1, if_neg hc1]
          by_cases hc2 : c = generateId now
          · rw [if_pos hc2, hc2, getNode_setKey_self]
          · rw [getNode_setKey_ne _ _ _ _ hc2, if_neg hc2]
      have hmemcases : ∀ kv,
          kv ∈ setKey (setKey s.nodes (generateId now) nn) parentId pn2 →
            kv = (parentId, pn2) ∨ kv = (generateId now, nn) ∨ kv ∈ s.nodes := by
        intro kv hkv
        rcases mem_setKey_cases _ _ _ _ hkv with h | h
        · exact Or.inl h
        · rcases mem_setKey_cases _ _ _ _ h with h | h
          · exact Or.inr (Or.inl h)
          · exact Or.inr (Or.inr h)
      have hlen :
          (setKey (setKey s.nodes (generateId now) nn) parentId pn2).length =
            s.nodes.length + 1 := by
        rw [length_setKey_some _ _ parentNode _ hg1,
          setKey_append_of_getNode_none _ _ _ hfresh, List.length_append]
        rfl
      have hloc : ∀ p w, getNode s.nodes p = some w →
          ∃ w2, getNode (setKey (setKey s.nodes (generateId now) nn) parentId pn2) p =
              some w2 ∧ w2.parentId = w.parentId := by
        intro p w hw
        rw [hlook p]
        by_cases hc1 : p = parentId
        · rw [if_pos hc1]
          rw [hc1, hp] at hw
          injection hw with hw
          subst hw
          exact ⟨pn2, rfl, hpn2par⟩
        · by_cases hc2 : p = generateId now
          · rw [hc2, hfresh] at hw; cases hw
          · rw [if_neg hc1, if_neg hc2]
            exact ⟨w, hw, rfl⟩
      have hchain2 : ancestorChainOk
          (setKey (setKey s.nodes (generateId now) nn) parentId pn2)
          s.nodes.length pn2 = true := by
        refine ancestorChainOk_transfer s.nodes _ hloc _ _ parentNode hpn2par ?_
        have hb := List.all_eq_true.mp hacyc _ hmempn
        simpa using hb
      refine ⟨⟨⟨?_, ?_⟩, ?_⟩, ?_⟩
      · -- invariant 1: one root, parents exist
        simp only [rootInvariant, Bool.and_eq_true] at hroot ⊢
        obtain ⟨hcount, hexist⟩ := hroot
        constructor
        · rw [decide_eq_true_eq] at hcount ⊢
          rw [countP_setKey_some _ _ parentNode _ _ hg1 (by simp [hpn2par]),
            setKey_append_of_getNode_none _ _ _ hfresh, List.countP_append]
          simpa [hnnpar] using hcount
        · rw [List.all_eq_true] at hexist ⊢
          intro kv hkv
          rcases hmemcases kv hkv with rfl | rfl | hkv2
          · simp only [hpn2par]
            cases hq : parentNode.parentId with
            | none => simp
            | some q =>
                simp only
                rw [hlook q]
                by_cases hc1 : q = parentId
                · simp [hc1]
                · rw [if_neg hc1]
                  by_cases hc2 : q = generateId now
                  · simp [hc2]
                  · rw [if_neg hc2]
                    have hb := hexist _ hmempn
                    simp only [hq] at hb
                    exact hb
          · simp only [hnnpar]
            rw [hlook parentId, if_pos rfl]
            simp
          · have hb := hexist _ hkv2
            cases hq : kv.2.parentId with
            | none => simp [hq]
            | some q =>
                simp only [hq] at hb ⊢
                rw [hlook q]
                by_cases hc1 : q = parentId
                · simp [hc1]
                · rw [if_neg hc1]
                  by_cases hc2 : q = generateId now
                  · simp [hc2]
                  · rw [if_neg hc2]; exact hb
      · -- invariant 2: childrenIds point back to their parent
        simp only [childParentInvariant, List.all_eq_true] at hcp ⊢
        intro kv hkv
        rcases hmemcases kv hkv with rfl | rfl | hkv2
        · intro c hc
          simp only [hpn2ch] at hc
          rcases List.mem_append.mp hc with hc | hc
          · have hbody := hcp _ hmempn c hc
            cases hgc : getNode s.nodes c with
            | none => simp [hgc] at hbody
            | some child =>
                simp only [hgc, decide_eq_true_eq] at hbody
                by_cases hck : c = parentId
                · exfalso
                  rw [hck, hp] at hgc
                  injection hgc with hgc
                  subst hgc
                  exact hnsl (by rw [hbody, hpid])
                · have hcn : c ≠ generateId now := hchild_ne c hc
                  rw [hlook c, if_neg hck, if_neg hcn]
                  simp only [hgc, decide_eq_true_eq]
                  rw [hbody, hpn2id]
          · simp only [List.mem_singleton] at hc
            subst hc
            rw [hlook (generateId now), if_neg hne, if_pos rfl]
            simp only [decide_eq_true_eq]
            rw [hnnpar, hpn2id, hpid]
        · intro c hc
          rw [hnnch] at hc
          simp at hc
        · intro c hc
          have hbody := hcp _ hkv2 c hc
          cases hgc : getNode s.nodes c with
          | none => simp [hgc] at hbody
          | some child =>
              simp only [hgc, decide_eq_true_eq] at hbody
              rw [hlook c]
              by_cases hck : c = parentId
              · rw [if_pos hck]
                rw [hck, hp] at hgc
                injection hgc with hgc
                subst hgc
                simp only [decide_eq_true_eq]
                rw [hpn2par]
                exact hbody
              · have hcn : c ≠ generateId now := by
                  intro hceq
                  rw [hceq, hfresh] at hgc
                  cases hgc
                rw [if_neg hck, if_neg hcn]
                simp only [hgc, decide_eq_true_eq]
                exact hbody
      · -- invariant 3: acyclicity
        simp only [acyclicInvariant, List.all_eq_true] at hacyc ⊢
        intro kv hkv
        rw [hlen]
        rcases hmemcases kv hkv with rfl | rfl | hkv2
        · exact ancestorChainOk_mono _ _ _ _ hchain2 (by omega)
        · have hplook : getNode (setKey (setKey s.nodes (generateId now) nn)
              parentId pn2) parentId = some pn2 := by
            rw [hlook parentId, if_pos rfl]
          have hstep : ancestorChainOk
              (setKey (setKey s.nodes (generateId now) nn) parentId pn2)
              (s.nodes.length + 1) nn = true := by
            simp only [ancestorChainOk, hnnpar, hplook]
            exact hchain2
          exact hstep
        · exact ancestorChainOk_mono _ _ _ _
            (ancestorChainOk_transfer s.nodes _ hloc _ kv.2 kv.2 rfl (hacyc _ hkv2))
            (by omega)
      · -- invariant 4: key matches id
        simp only [keyMatchesInvariant, List.all_eq_true] at hkeys ⊢
        intro kv hkv
        rcases hmemcases kv hkv with rfl | rfl | hkv2
        · simp [hpn2id, hpid]
        · simp [hnnid]
        · exact hkeys _ hkv2

/-- Any single reducer step with a collision-free clock value preserves
the four tree invariants. -/
theorem treeInvariants_step (s : MindMapState) (now : ℕ) (a : MindMapAction)
    (hfresh : stepFresh s now a = true) (hinv : treeInvariants s = true) :
    treeInvariants (mindMapReducer now s a) = true := by
  cases a with
  | addNode parentId text pos =>
      apply treeInvariants_addNode s now parentId text pos _ hinv
      simpa [stepFresh, Option.isNone_iff_eq_none] using hfresh
  | updateNodeText nodeId newText =>
      cases hg : getNode s.nodes nodeId with
      | none => simpa [mindMapReducer, hg] using hinv
      | some node =>
          simp only [mindMapReducer, hg]
          exact treeInvariants_setKey_update s nodeId node _ hg rfl rfl rfl hinv
  | toggleNodeExpansion nodeId =>
      cases hg : getNode s.nodes nodeId with
      | none => simpa [mindMapReducer, hg] using hinv
      | some node =>
          simp only [mindMapReducer, hg]
          exact treeInvariants_setKey_update s nodeId node _ hg rfl rfl rfl hinv
  | setNodePosition nodeId pos =>
      cases hg : getNode s.nodes nodeId with
      | none => simpa [mindMapReducer, hg] using hinv
      | some node =>
          simp only [mindMapReducer, hg]
          exact treeInvariants_setKey_update s nodeId node _ hg rfl rfl rfl hinv
  | updateNodeStyle nodeId patch =>
      cases hg : getNode s.nodes nodeId with
      | none => simpa [mindMapReducer, hg] using hinv
      | some node =>
          simp only [mindMapReducer, hg]
          exact treeInvariants_setKey_update s nodeId node _ hg rfl rfl rfl hinv
  | updateNodeHtmlContent nodeId htmlContent =>
      cases hg : getNode s.nodes nodeId with
      | none => simpa [mindMapReducer, hg] using hinv
      | some node =>
          simp only [mindMapReducer, hg]
          exact treeInvariants_setKey_update s nodeId node _ hg rfl rfl rfl hinv
  | updateNodeConnectionStyle nodeId patch =>
      cases hg : getNode s.nodes nodeId with
      | none => simpa [mindMapReducer, hg] using hinv
      | some node =>
          simp only [mindMapReducer, hg]
          exact treeInvariants_setKey_update s nodeId node _ hg rfl rfl rfl hinv
  | updateNodePositionByDelta nodeId dx dy cs => simpa [mindMapReducer] using hinv

/-- The initial state satisfies the four tree invariants, whatever the
creation-time clock value. -/
theorem treeInvariants_initialState (t0 : ℕ) :
    treeInvariants (initialState t0) = true := by
  simp [treeInvariants, initialState, initialRootNode, rootInvariant,
    childParentInvariant, acyclicInvariant, keyMatchesInvariant, getNode,
    ancestorChainOk, List.countP_cons]

/-- Supporting theorem for the C2/C3 diagnosis: along any run from the
initial state in which every `ADD_NODE` step's generated id is
collision-free, every reached state satisfies all four tree invariants
of spec §3.  The C2/C3 failures are therefore entirely the fault of the
`Date.now()` id scheme, not of the reducer's update logic. -/
theorem treeInvariants_of_runFresh (t0 : ℕ) (steps : List (ℕ × MindMapAction))
    (h : runFresh (initialState t0) steps = true) :
    treeInvariants (applyActions (initialState t0) steps) = true := by
  have hgen : ∀ steps2, ∀ s : MindMapState, treeInvariants s = true →
      runFresh s steps2 = true → treeInvariants (applyActions s steps2) = true := by
    intro steps2
    induction steps2 with
    | nil => intro s hs _; exact hs
    | cons p rest ih =>
        obtain ⟨now, a⟩ := p
        intro s hs hrun
        simp only [runFresh, Bool.and_eq_true] at hrun
        exact ih _ (treeInvariants_step s now a hrun.1 hs) hrun.2
  exact hgen steps _ (treeInvariants_initialState t0) h

end MindMap
